import Mathlib

/-!
Verification of the membrane elasticity force computation of the
ImmersedBoundary repository (`src/ImmersedBoundaryMembraneElasticityForce.cpp`).

The mesh, element and node data structures are external collaborators of the
force class; here they are modelled as plain data.  Machine doubles are
modelled as real numbers.  Global node indices are naturals; an element holds
the (cyclic) list of global indices of its boundary nodes together with the
list of global indices of its (up to four) corner nodes.  The mesh-provided
periodic displacement function `GetVectorFromAtoB` and the average node
spacing `GetAverageNodeSpacingOfElement` are external collaborators and are
carried as function fields of the mesh record.
-/

/-- A point / displacement in the plane (the 2-d instantiation of the force). -/
abbrev Vec : Type := ℝ × ℝ

/-- Euclidean magnitude of a planar vector (`norm_2` in the source). -/
noncomputable def norm2 (v : Vec) : ℝ := Real.sqrt (v.1 * v.1 + v.2 * v.2)

/-- An immersed boundary element: its cyclic list of global node indices and
the global indices of its corner nodes (`rGetCornerNodes`). -/
structure IBElement where
  nodes : List ℕ
  corners : List ℕ

instance : Inhabited IBElement := ⟨⟨[], []⟩⟩

/-- The immersed boundary mesh, as consumed by the force class.
`vecFromAtoB` is the mesh's periodic-aware displacement function
(`GetVectorFromAtoB`); `averageNodeSpacing` is
`GetAverageNodeSpacingOfElement (elemIndex, false)`. -/
structure IBMesh where
  elements : List IBElement
  membraneIndex : ℕ
  vecFromAtoB : Vec → Vec → Vec
  averageNodeSpacing : ℕ → ℝ

/-- The cell population wrapper: the mesh plus the intrinsic spacing scalar
(`GetIntrinsicSpacing`). -/
structure Population where
  mesh : IBMesh
  intrinsicSpacing : ℝ

/-- The externally owned mutable simulation state: per global node index its
position, additive force accumulator and region tag, and per element index
the element's attribute list (`rGetElementAttributes`). -/
structure SimState where
  pos : ℕ → Vec
  force : ℕ → Vec
  region : ℕ → ℕ
  attrs : ℕ → List ℝ

/-- The member state of `ImmersedBoundaryMembraneElasticityForce`. -/
structure ForceState where
  mpMesh : Option IBMesh
  mSpringConstant : ℝ
  mRestLengthMultiplier : ℝ
  mBasementSpringConstantModifier : ℝ
  mBasementRestLengthModifier : ℝ
  mReferenceLocationInAttributesVector : ℕ
  mElementsHaveCorners : Bool

/-- Constructor defaults of the force class. -/
noncomputable def ForceState.mk0 : ForceState :=
  ⟨none, 1e6, 0.5, 5.0, 0.5, 0, false⟩

/-- Region code for basal nodes (`msBas`). -/
def msBas : ℕ := 0

/-- Region code for apical nodes (`msApi`). -/
def msApi : ℕ := 1

/-- Region code for lateral nodes (`msLat`). -/
def msLat : ℕ := 2

/-- Fold over a list together with the running element index, mirroring a
`for` loop over mesh elements that uses `elem_it->GetIndex()`. -/
def foldWithIndex {α σ : Type} (f : ℕ → α → σ → σ) : ℕ → List α → σ → σ
  | _, [], s => s
  | i, a :: l, s => foldWithIndex f (i + 1) l (f i a s)

/-- `SetRegion` applied to the nodes with local index in `[lo, hi)` of an
element (one of the five region-tagging loops). -/
def setRegionRange (e : IBElement) (lo hi r : ℕ) (reg : ℕ → ℕ) : ℕ → ℕ :=
  (List.range' lo (hi - lo)).foldl
    (fun f j => Function.update f (e.nodes.getD j 0) r) reg

/-- The body of the `TagNodeRegions` element loop: membrane elements get all
nodes tagged basal; other elements are tagged lateral / apical / lateral /
basal / lateral using the local indices of the four stored corner nodes. -/
def tagElementRegions (m : IBMesh) (eidx : ℕ) (e : IBElement) (reg : ℕ → ℕ) : ℕ → ℕ :=
  if m.membraneIndex = eidx then
    setRegionRange e 0 e.nodes.length msBas reg
  else
    let change_1 := e.nodes.indexOf (e.corners.getD 1 0)
    let change_2 := e.nodes.indexOf (e.corners.getD 0 0) + 1
    let change_3 := e.nodes.indexOf (e.corners.getD 3 0)
    let change_4 := e.nodes.indexOf (e.corners.getD 2 0) + 1
    let reg1 := setRegionRange e 0 change_1 msLat reg
    let reg2 := setRegionRange e change_1 change_2 msApi reg1
    let reg3 := setRegionRange e change_2 change_3 msLat reg2
    let reg4 := setRegionRange e change_3 change_4 msBas reg3
    setRegionRange e change_4 e.nodes.length msLat reg4

/-- `TagNodeRegions`: one-time classification of every node of every element
into basal / apical / lateral. -/
def TagNodeRegions (m : IBMesh) (st : SimState) : SimState :=
  { st with region := foldWithIndex (fun i e r => tagElementRegions m i e r) 0 m.elements st.region }

/-- The body of the `TagApicalAndBasalLengths` element loop: the membrane
element gets two zero attributes appended; any other element gets the
absolute first component of the periodic displacement from node 0 to node
`numNodes / 2` (the element width) appended twice. -/
noncomputable def tagElementLengths (m : IBMesh) (pos : ℕ → Vec) (eidx : ℕ) (e : IBElement)
    (attrs : ℕ → List ℝ) : ℕ → List ℝ :=
  if eidx = m.membraneIndex then
    Function.update attrs eidx (attrs eidx ++ [0, 0])
  else
    let half_way := e.nodes.length / 2
    let elem_width :=
      |(m.vecFromAtoB (pos (e.nodes.getD 0 0)) (pos (e.nodes.getD half_way 0))).1|
    Function.update attrs eidx (attrs eidx ++ [elem_width, elem_width])

/-- `TagApicalAndBasalLengths`: one-time recording of the baseline apical and
basal lengths as two appended element attributes. -/
noncomputable def TagApicalAndBasalLengths (m : IBMesh) (st : SimState) : SimState :=
  { st with attrs := foldWithIndex (fun i e a => tagElementLengths m st.pos i e a) 0 m.elements st.attrs }

/-- `GetApicalLengthForElement`: reads the stored apical baseline length from
the element's attribute list. -/
def GetApicalLengthForElement (fs : ForceState) (st : SimState) (elemIndex : ℕ) : ℝ :=
  (st.attrs elemIndex).getD fs.mReferenceLocationInAttributesVector 0

/-- `GetBasalLengthForElement`: reads the stored basal baseline length from
the element's attribute list. -/
def GetBasalLengthForElement (fs : ForceState) (st : SimState) (elemIndex : ℕ) : ℝ :=
  (st.attrs elemIndex).getD (fs.mReferenceLocationInAttributesVector + 1) 0

/-- The displacement vector from node `i` to node `(i+1) mod n` of an element,
obtained through the mesh's periodic-aware `GetVectorFromAtoB`. -/
def segVec (m : IBMesh) (pos : ℕ → Vec) (e : IBElement) (i : ℕ) : Vec :=
  m.vecFromAtoB (pos (e.nodes.getD i 0)) (pos (e.nodes.getD ((i + 1) % e.nodes.length) 0))

/-- `elastic_force_to_next_node[i]`: the Hooke's-law spring force stored for
segment `i`, `spring_constant * (d - rest_length) / d` times the displacement
vector, with `d` the displacement magnitude. -/
noncomputable def elasticForceToNextNode (m : IBMesh) (pos : ℕ → Vec) (k L : ℝ)
    (e : IBElement) (i : ℕ) : Vec :=
  let v := segVec m pos e i
  (k * (norm2 v - L) / norm2 v) • v

/-- The aggregate force contribution to node `i`: the spring to the next node
minus the spring from the previous node. -/
noncomputable def aggregateForce (m : IBMesh) (pos : ℕ → Vec) (k L : ℝ)
    (e : IBElement) (i : ℕ) : Vec :=
  elasticForceToNextNode m pos k L e i -
    elasticForceToNextNode m pos k L e ((i + e.nodes.length - 1) % e.nodes.length)

/-- The per-element spring constant and rest length: the base spring constant
scaled by `intrinsic_spacing^2 / spacing_ratio^2`, the rest length multiplier
scaled by the spacing ratio, and the basement modifiers applied exactly when
the element is the membrane element. -/
noncomputable def elementSpringParams (fs : ForceState) (m : IBMesh)
    (intrinsicSpacingSquared : ℝ) (eidx : ℕ) : ℝ × ℝ :=
  let spacing_ratio := m.averageNodeSpacing eidx
  let spring_constant := fs.mSpringConstant * intrinsicSpacingSquared / (spacing_ratio * spacing_ratio)
  let rest_length := fs.mRestLengthMultiplier * spacing_ratio
  if eidx = m.membraneIndex then
    (spring_constant * fs.mBasementSpringConstantModifier,
     rest_length * fs.mBasementRestLengthModifier)
  else
    (spring_constant, rest_length)

/-- The body of the force-computation element loop: every node of the element
receives, additively (`AddAppliedForceContribution`), its aggregate spring
force. -/
noncomputable def applyElementForces (fs : ForceState) (m : IBMesh)
    (intrinsicSpacingSquared : ℝ) (eidx : ℕ) (e : IBElement) (st : SimState) : SimState :=
  let kl := elementSpringParams fs m intrinsicSpacingSquared eidx
  { st with
    force := (List.range e.nodes.length).foldl
      (fun f i => Function.update f (e.nodes.getD i 0)
        (f (e.nodes.getD i 0) + aggregateForce m st.pos kl.1 kl.2 e i)) st.force }

/-- The per-timestep force loop over all elements of the bound mesh. -/
noncomputable def forcePassAux (fs : ForceState) (m : IBMesh) (intrinsicSpacingSquared : ℝ) :
    ℕ → List IBElement → SimState → SimState
  | _, [], st => st
  | i, e :: rest, st =>
    forcePassAux fs m intrinsicSpacingSquared (i + 1) rest
      (applyElementForces fs m intrinsicSpacingSquared i e st)

/-- The complete force-computation pass over the bound mesh. -/
noncomputable def forceComputationPass (fs : ForceState) (m : IBMesh)
    (intrinsicSpacingSquared : ℝ) (st : SimState) : SimState :=
  forcePassAux fs m intrinsicSpacingSquared 0 m.elements st

/-- Error message of the corner-count configuration check. -/
def cornersErrorMsg : String :=
  "All elements must have the same number of corners to use this force class."

/-- Error message of the attribute-count configuration check. -/
def attributesErrorMsg : String :=
  "All elements must have the same number of attributes to use this force class."

/-- `AddImmersedBoundaryForceContribution`.  On the first call (null mesh
pointer) the mesh is bound, the corner and attribute counts are validated
(raising a fatal configuration error on mismatch, which aborts the call), and
with four corners per element the node regions and baseline lengths are
tagged; then (and on every later call directly) the spring forces of every
element are accumulated onto the nodes.  The returned `Option String` is the
raised exception message, `none` when the call completes. -/
noncomputable def AddImmersedBoundaryForceContribution (fs : ForceState) (pop : Population)
    (st : SimState) : ForceState × SimState × Option String :=
  match fs.mpMesh with
  | none =>
    let m := pop.mesh
    let fs1 := { fs with mpMesh := some m }
    let num_corners := (m.elements.getD 0 default).corners.length
    if (m.elements.drop 1).any (fun e => decide (e.corners.length ≠ num_corners)) then
      (fs1, st, some cornersErrorMsg)
    else
      let fs2 := { fs1 with mElementsHaveCorners := decide (num_corners = 4) }
      if fs2.mElementsHaveCorners then
        let ref := (st.attrs 0).length
        let fs3 := { fs2 with mReferenceLocationInAttributesVector := ref }
        if ((List.range m.elements.length).drop 1).any
            (fun i => decide ((st.attrs i).length ≠ ref)) then
          (fs3, st, some attributesErrorMsg)
        else
          let st1 := TagNodeRegions m st
          let st2 := TagApicalAndBasalLengths m st1
          (fs3, forceComputationPass fs3 m (pop.intrinsicSpacing * pop.intrinsicSpacing) st2, none)
      else
        (fs2, forceComputationPass fs2 m (pop.intrinsicSpacing * pop.intrinsicSpacing) st, none)
  | some m =>
    (fs, forceComputationPass fs m (pop.intrinsicSpacing * pop.intrinsicSpacing) st, none)

/-- Division made fallible: `none` exactly on a zero denominator. -/
noncomputable def checkedDiv (x y : ℝ) : Option ℝ :=
  if y = 0 then none else some (x / y)

/-- The per-segment spring force with its (unguarded, in the source) division
by the segment length rendered as a fallible operation: `none` signals the
division-by-zero domain error. -/
noncomputable def elasticForceToNextNodeChecked (m : IBMesh) (pos : ℕ → Vec) (k L : ℝ)
    (e : IBElement) (i : ℕ) : Option Vec :=
  let v := segVec m pos e i
  match checkedDiv (k * (norm2 v - L)) (norm2 v) with
  | none => none
  | some c => some (c • v)

/-- Modelled from the spec: the "planar distance" between two node positions,
the magnitude of the mesh's periodic-aware displacement between them.  This is
the quantity the spec's baseline-length sentence names; the source instead
stores the absolute first component of the displacement. -/
noncomputable def planarDistance (m : IBMesh) (a b : Vec) : ℝ :=
  norm2 (m.vecFromAtoB a b)

/-! ### Generic lemmas about the update folds used by the loops -/

/-- An accumulate-fold leaves a slot untouched when no step keys it. -/
theorem addFold_untouched (key : ℕ → ℕ) (val : ℕ → Vec) (l : List ℕ) (f0 : ℕ → Vec) (g : ℕ)
    (h : ∀ j ∈ l, key j ≠ g) :
    (l.foldl (fun f j => Function.update f (key j) (f (key j) + val j)) f0) g = f0 g := by
  induction l generalizing f0 with
  | nil => rfl
  | cons a t ih =>
    simp only [List.foldl_cons]
    rw [ih _ (fun j hj => h j (List.mem_cons_of_mem a hj))]
    exact Function.update_noteq (Ne.symm (h a (List.mem_cons_self a t))) _ _

/-- An accumulate-fold that keys a slot exactly once adds exactly that step's
value to it. -/
theorem addFold_single (key : ℕ → ℕ) (val : ℕ → Vec) (l₁ l₂ : List ℕ) (j : ℕ)
    (f0 : ℕ → Vec) (g : ℕ)
    (h1 : ∀ x ∈ l₁, key x ≠ g) (h2 : ∀ x ∈ l₂, key x ≠ g) (hj : key j = g) :
    ((l₁ ++ j :: l₂).foldl (fun f x => Function.update f (key x) (f (key x) + val x)) f0) g
      = f0 g + val j := by
  rw [List.foldl_append, List.foldl_cons]
  rw [addFold_untouched key val l₂ _ g h2]
  rw [hj, Function.update_same]
  rw [addFold_untouched key val l₁ f0 g h1]

/-- An overwrite-fold leaves a slot untouched when no step keys it. -/
theorem setFold_untouched (key : ℕ → ℕ) (r : ℕ) (l : List ℕ) (f0 : ℕ → ℕ) (g : ℕ)
    (h : ∀ j ∈ l, key j ≠ g) :
    (l.foldl (fun f j => Function.update f (key j) r) f0) g = f0 g := by
  induction l generalizing f0 with
  | nil => rfl
  | cons a t ih =>
    simp only [List.foldl_cons]
    rw [ih _ (fun j hj => h j (List.mem_cons_of_mem a hj))]
    exact Function.update_noteq (Ne.symm (h a (List.mem_cons_self a t))) _ _

/-- An overwrite-fold writing the constant `r` leaves `r` in every slot it
keys at least once. -/
theorem setFold_hit (key : ℕ → ℕ) (r : ℕ) (l : List ℕ) (f0 : ℕ → ℕ) (g : ℕ)
    (h : ∃ j ∈ l, key j = g) :
    (l.foldl (fun f j => Function.update f (key j) r) f0) g = r := by
  induction l generalizing f0 with
  | nil => obtain ⟨j, hj, _⟩ := h; exact absurd hj (List.not_mem_nil j)
  | cons a t ih =>
    simp only [List.foldl_cons]
    by_cases ht : ∃ j ∈ t, key j = g
    · exact ih _ ht
    · obtain ⟨j, hj, hkey⟩ := h
      rcases List.mem_cons.1 hj with rfl | hjt
      · rw [setFold_untouched key r t _ g (fun x hx hk => ht ⟨x, hx, hk⟩)]
        rw [hkey, Function.update_same]
      · exact absurd ⟨j, hjt, hkey⟩ ht

/-- `List.range n` split at an interior position. -/
theorem range_split (i n : ℕ) (h : i < n) :
    List.range n = List.range i ++ i :: List.range' (i + 1) (n - (i + 1)) := by
  have h2 := List.range'_append 0 i (n - i) 1
  simp only [one_mul, zero_add] at h2
  rw [show (n - i) + i = n by omega] at h2
  rw [List.range_eq_range', ← h2, List.range_eq_range']
  congr 1
  rw [show n - i = (n - (i + 1)) + 1 by omega, List.range'_succ]

/-! ### Lemmas about the force-computation pass -/

/-- The force loop only writes force accumulators. -/
theorem applyElementForces_pos (fs : ForceState) (m : IBMesh) (iss : ℝ) (eidx : ℕ)
    (e : IBElement) (st : SimState) :
    (applyElementForces fs m iss eidx e st).pos = st.pos := rfl

theorem applyElementForces_region (fs : ForceState) (m : IBMesh) (iss : ℝ) (eidx : ℕ)
    (e : IBElement) (st : SimState) :
    (applyElementForces fs m iss eidx e st).region = st.region := rfl

theorem applyElementForces_attrs (fs : ForceState) (m : IBMesh) (iss : ℝ) (eidx : ℕ)
    (e : IBElement) (st : SimState) :
    (applyElementForces fs m iss eidx e st).attrs = st.attrs := rfl

/-- An element not containing the node leaves its accumulator unchanged. -/
theorem applyElementForces_force_untouched (fs : ForceState) (m : IBMesh) (iss : ℝ)
    (eidx : ℕ) (e : IBElement) (st : SimState) (g : ℕ)
    (h : ∀ j, e.nodes.getD j 0 ≠ g) :
    (applyElementForces fs m iss eidx e st).force g = st.force g := by
  exact addFold_untouched (fun i => e.nodes.getD i 0) _ _ _ _ (fun j _ => h j)

/-- An element containing the node exactly once (at local index `i`) adds
exactly the aggregate force of local index `i` to its accumulator. -/
theorem applyElementForces_force_single (fs : ForceState) (m : IBMesh) (iss : ℝ)
    (eidx : ℕ) (e : IBElement) (st : SimState) (g i : ℕ)
    (hi : i < e.nodes.length) (hg : e.nodes.getD i 0 = g)
    (hu : ∀ j, j ≠ i → e.nodes.getD j 0 ≠ g) :
    (applyElementForces fs m iss eidx e st).force g
      = st.force g + aggregateForce m st.pos
          (elementSpringParams fs m iss eidx).1 (elementSpringParams fs m iss eidx).2 e i := by
  show ((List.range e.nodes.length).foldl _ st.force) g = _
  rw [range_split i e.nodes.length hi]
  exact addFold_single (fun j => e.nodes.getD j 0) _ _ _ i st.force g
    (fun x hx => hu x (by have := List.mem_range.1 hx; omega))
    (fun x hx => hu x (by have := (List.mem_range'_1.1 hx).1; omega))
    hg

/-- The force pass only writes force accumulators. -/
theorem forcePassAux_pos (fs : ForceState) (m : IBMesh) (iss : ℝ) (l : List IBElement)
    (i0 : ℕ) (st : SimState) :
    (forcePassAux fs m iss i0 l st).pos = st.pos := by
  induction l generalizing i0 st with
  | nil => rfl
  | cons e rest ih => exact ih _ _

theorem forcePassAux_region (fs : ForceState) (m : IBMesh) (iss : ℝ) (l : List IBElement)
    (i0 : ℕ) (st : SimState) :
    (forcePassAux fs m iss i0 l st).region = st.region := by
  induction l generalizing i0 st with
  | nil => rfl
  | cons e rest ih => exact ih _ _

theorem forcePassAux_attrs (fs : ForceState) (m : IBMesh) (iss : ℝ) (l : List IBElement)
    (i0 : ℕ) (st : SimState) :
    (forcePassAux fs m iss i0 l st).attrs = st.attrs := by
  induction l generalizing i0 st with
  | nil => rfl
  | cons e rest ih => exact ih _ _

/-- A run of elements none of which contains the node leaves its accumulator
unchanged. -/
theorem forcePassAux_force_untouched (fs : ForceState) (m : IBMesh) (iss : ℝ)
    (l : List IBElement) (i0 : ℕ) (st : SimState) (g : ℕ)
    (h : ∀ q, q < l.length → ∀ j, (l.getD q default).nodes.getD j 0 ≠ g) :
    (forcePassAux fs m iss i0 l st).force g = st.force g := by
  induction l generalizing i0 st with
  | nil => rfl
  | cons e rest ih =>
    show (forcePassAux fs m iss (i0 + 1) rest _).force g = _
    rw [ih _ _ (fun q hq j => h (q + 1) (by simpa using Nat.succ_lt_succ hq) j)]
    exact applyElementForces_force_untouched fs m iss i0 e st g (h 0 (by simp) )

/-- Evaluation of the force pass at a node occurring exactly once, in the
element at position `p` of the remaining element list. -/
theorem forcePassAux_force_single (fs : ForceState) (m : IBMesh) (iss : ℝ)
    (l : List IBElement) (i0 p : ℕ) (st : SimState) (g i : ℕ)
    (hp : p < l.length)
    (hother : ∀ q, q < l.length → q ≠ p → ∀ j, (l.getD q default).nodes.getD j 0 ≠ g)
    (hi : i < (l.getD p default).nodes.length)
    (hg : (l.getD p default).nodes.getD i 0 = g)
    (hu : ∀ j, j ≠ i → (l.getD p default).nodes.getD j 0 ≠ g) :
    (forcePassAux fs m iss i0 l st).force g
      = st.force g + aggregateForce m st.pos
          (elementSpringParams fs m iss (i0 + p)).1
          (elementSpringParams fs m iss (i0 + p)).2 (l.getD p default) i := by
  induction l generalizing i0 p st with
  | nil => exact absurd hp (by simp)
  | cons e rest ih =>
    cases p with
    | zero =>
      show (forcePassAux fs m iss (i0 + 1) rest _).force g = _
      rw [forcePassAux_force_untouched fs m iss rest _ _ g
        (fun q hq j => hother (q + 1) (by simpa using Nat.succ_lt_succ hq) (by omega) j)]
      rw [applyElementForces_force_single fs m iss i0 e st g i hi hg hu]
      rfl
    | succ p' =>
      show (forcePassAux fs m iss (i0 + 1) rest _).force g = _
      have hstep : ∀ j, e.nodes.getD j 0 ≠ g := fun j =>
        hother 0 (by simp) (by omega) j
      rw [show i0 + (p' + 1) = (i0 + 1) + p' by omega]
      rw [ih _ _ _ (by simpa using Nat.lt_of_succ_lt_succ hp)
        (fun q hq hqp j => hother (q + 1) (by simpa using Nat.succ_lt_succ hq) (by omega) j)
        hi hg hu]
      rw [applyElementForces_force_untouched fs m iss i0 e st g hstep]
      rw [applyElementForces_pos]
      rfl

/-- The forces produced by the force pass depend only on the node positions
and the incoming accumulators, not on regions or attributes. -/
theorem forcePassAux_force_congr (fs : ForceState) (m : IBMesh) (iss : ℝ)
    (l : List IBElement) (i0 : ℕ) (st st' : SimState)
    (hpos : st.pos = st'.pos) (hforce : st.force = st'.force) :
    (forcePassAux fs m iss i0 l st).force = (forcePassAux fs m iss i0 l st').force := by
  induction l generalizing i0 st st' with
  | nil => exact hforce
  | cons e rest ih =>
    show (forcePassAux fs m iss (i0 + 1) rest _).force = (forcePassAux fs m iss (i0 + 1) rest _).force
    apply ih
    · rw [applyElementForces_pos, applyElementForces_pos, hpos]
    · show (List.range e.nodes.length).foldl _ st.force
        = (List.range e.nodes.length).foldl _ st'.force
      rw [hpos, hforce]

/-! ### Lemmas about region tagging -/

/-- A tagging loop over `[lo, hi)` does not change a node none of whose local
indices it visits keys. -/
theorem setRegionRange_untouched (e : IBElement) (lo hi r : ℕ) (reg : ℕ → ℕ) (g : ℕ)
    (h : ∀ j ∈ List.range' lo (hi - lo), e.nodes.getD j 0 ≠ g) :
    setRegionRange e lo hi r reg g = reg g :=
  setFold_untouched (fun j => e.nodes.getD j 0) r _ reg g h

/-- A tagging loop over `[lo, hi)` writes `r` into a node it keys. -/
theorem setRegionRange_hit (e : IBElement) (lo hi r : ℕ) (reg : ℕ → ℕ) (g j : ℕ)
    (hlo : lo ≤ j) (hhi : j < hi) (hg : e.nodes.getD j 0 = g) :
    setRegionRange e lo hi r reg g = r :=
  setFold_hit (fun x => e.nodes.getD x 0) r _ reg g
    ⟨j, List.mem_range'_1.2 ⟨hlo, by omega⟩, hg⟩

/-- A tagging loop over a window not containing the unique local index of the
node leaves it unchanged. -/
theorem setRegionRange_miss (e : IBElement) (lo hi r : ℕ) (reg : ℕ → ℕ) (g j : ℕ)
    (hj : j < lo ∨ hi ≤ j) (hu : ∀ x, x ≠ j → e.nodes.getD x 0 ≠ g) :
    setRegionRange e lo hi r reg g = reg g := by
  apply setRegionRange_untouched
  intro x hx
  have hx' := List.mem_range'_1.1 hx
  exact hu x (by omega)

/-- An element not containing the node leaves its region unchanged. -/
theorem tagElementRegions_untouched (m : IBMesh) (eidx : ℕ) (e : IBElement)
    (reg : ℕ → ℕ) (g : ℕ) (h : ∀ j, e.nodes.getD j 0 ≠ g) :
    tagElementRegions m eidx e reg g = reg g := by
  unfold tagElementRegions
  split
  · exact setRegionRange_untouched e 0 e.nodes.length msBas reg g (fun j _ => h j)
  · rw [setRegionRange_untouched _ _ _ _ _ g (fun j _ => h j)]
    rw [setRegionRange_untouched _ _ _ _ _ g (fun j _ => h j)]
    rw [setRegionRange_untouched _ _ _ _ _ g (fun j _ => h j)]
    rw [setRegionRange_untouched _ _ _ _ _ g (fun j _ => h j)]
    exact setRegionRange_untouched _ _ _ _ _ g (fun j _ => h j)

/-- Region written to a node of the membrane element: basal. -/
theorem tagElementRegions_membrane (m : IBMesh) (eidx : ℕ) (e : IBElement)
    (reg : ℕ → ℕ) (g j : ℕ)
    (hmem : m.membraneIndex = eidx) (hj : j < e.nodes.length)
    (hg : e.nodes.getD j 0 = g) :
    tagElementRegions m eidx e reg g = msBas := by
  unfold tagElementRegions
  rw [if_pos hmem]
  exact setRegionRange_hit e 0 e.nodes.length msBas reg g j (Nat.zero_le j) hj hg

/-- Region written to a node of a non-membrane element, by the five tagging
loops, for monotone corner boundaries. -/
theorem tagElementRegions_eval (m : IBMesh) (eidx : ℕ) (e : IBElement)
    (reg : ℕ → ℕ) (g j : ℕ)
    (hmem : m.membraneIndex ≠ eidx) (hj : j < e.nodes.length)
    (hg : e.nodes.getD j 0 = g)
    (hu : ∀ x, x ≠ j → e.nodes.getD x 0 ≠ g)
    (hc12 : e.nodes.indexOf (e.corners.getD 1 0) ≤ e.nodes.indexOf (e.corners.getD 0 0) + 1)
    (hc23 : e.nodes.indexOf (e.corners.getD 0 0) + 1 ≤ e.nodes.indexOf (e.corners.getD 3 0))
    (hc34 : e.nodes.indexOf (e.corners.getD 3 0) ≤ e.nodes.indexOf (e.corners.getD 2 0) + 1) :
    tagElementRegions m eidx e reg g =
      (if j < e.nodes.indexOf (e.corners.getD 1 0) then msLat
       else if j < e.nodes.indexOf (e.corners.getD 0 0) + 1 then msApi
       else if j < e.nodes.indexOf (e.corners.getD 3 0) then msLat
       else if j < e.nodes.indexOf (e.corners.getD 2 0) + 1 then msBas
       else msLat) := by
  unfold tagElementRegions
  rw [if_neg hmem]
  set c1 := e.nodes.indexOf (e.corners.getD 1 0) with hc1
  set c2 := e.nodes.indexOf (e.corners.getD 0 0) + 1 with hc2
  set c3 := e.nodes.indexOf (e.corners.getD 3 0) with hc3
  set c4 := e.nodes.indexOf (e.corners.getD 2 0) + 1 with hc4
  by_cases h1 : j < c1
  · rw [setRegionRange_miss e c4 _ _ _ g j (Or.inl (by omega)) hu]
    rw [setRegionRange_miss e c3 c4 _ _ g j (Or.inl (by omega)) hu]
    rw [setRegionRange_miss e c2 c3 _ _ g j (Or.inl (by omega)) hu]
    rw [setRegionRange_miss e c1 c2 _ _ g j (Or.inl (by omega)) hu]
    rw [setRegionRange_hit e 0 c1 _ _ g j (Nat.zero_le j) h1 hg]
    rw [if_pos h1]
  · by_cases h2 : j < c2
    · rw [setRegionRange_miss e c4 _ _ _ g j (Or.inl (by omega)) hu]
      rw [setRegionRange_miss e c3 c4 _ _ g j (Or.inl (by omega)) hu]
      rw [setRegionRange_miss e c2 c3 _ _ g j (Or.inl (by omega)) hu]
      rw [setRegionRange_hit e c1 c2 _ _ g j (by omega) h2 hg]
      rw [if_neg h1, if_pos h2]
    · by_cases h3 : j < c3
      · rw [setRegionRange_miss e c4 _ _ _ g j (Or.inl (by omega)) hu]
        rw [setRegionRange_miss e c3 c4 _ _ g j (Or.inl (by omega)) hu]
        rw [setRegionRange_hit e c2 c3 _ _ g j (by omega) h3 hg]
        rw [if_neg h1, if_neg h2, if_pos h3]
      · by_cases h4 : j < c4
        · rw [setRegionRange_miss e c4 _ _ _ g j (Or.inl (by omega)) hu]
          rw [setRegionRange_hit e c3 c4 _ _ g j (by omega) h4 hg]
          rw [if_neg h1, if_neg h2, if_neg h3, if_pos h4]
        · rw [setRegionRange_hit e c4 e.nodes.length _ _ g j (by omega) hj hg]
          rw [if_neg h1, if_neg h2, if_neg h3, if_neg h4]

/-- The element loop of `TagNodeRegions` leaves a node unchanged when no
listed element contains it. -/
theorem regionFold_untouched (m : IBMesh) (l : List IBElement) (i0 : ℕ)
    (reg : ℕ → ℕ) (g : ℕ)
    (h : ∀ q, q < l.length → ∀ j, (l.getD q default).nodes.getD j 0 ≠ g) :
    foldWithIndex (fun i e r => tagElementRegions m i e r) i0 l reg g = reg g := by
  induction l generalizing i0 reg with
  | nil => rfl
  | cons e rest ih =>
    show foldWithIndex (fun i e r => tagElementRegions m i e r) (i0 + 1) rest
      (tagElementRegions m i0 e reg) g = _
    rw [ih _ _ (fun q hq j => h (q + 1) (by simpa using Nat.succ_lt_succ hq) j)]
    exact tagElementRegions_untouched m i0 e reg g (h 0 (by simp))

/-- Evaluation of the element loop of `TagNodeRegions` at a node of the
element at position `p`, when no other listed element contains the node and
that element writes the fixed region `R` into it. -/
theorem regionFold_single (m : IBMesh) (l : List IBElement) (i0 p : ℕ)
    (reg : ℕ → ℕ) (g R : ℕ) (hp : p < l.length)
    (hother : ∀ q, q < l.length → q ≠ p → ∀ j, (l.getD q default).nodes.getD j 0 ≠ g)
    (htarget : ∀ t : ℕ → ℕ, tagElementRegions m (i0 + p) (l.getD p default) t g = R) :
    foldWithIndex (fun i e r => tagElementRegions m i e r) i0 l reg g = R := by
  induction l generalizing i0 p reg with
  | nil => exact absurd hp (by simp)
  | cons e rest ih =>
    cases p with
    | zero =>
      show foldWithIndex (fun i e r => tagElementRegions m i e r) (i0 + 1) rest
        (tagElementRegions m i0 e reg) g = _
      rw [regionFold_untouched m rest _ _ g
        (fun q hq j => hother (q + 1) (by simpa using Nat.succ_lt_succ hq) (by omega) j)]
      simpa using htarget reg
    | succ p' =>
      show foldWithIndex (fun i e r => tagElementRegions m i e r) (i0 + 1) rest
        (tagElementRegions m i0 e reg) g = _
      apply ih _ p' _ (by simpa using Nat.lt_of_succ_lt_succ hp)
        (fun q hq hqp j => hother (q + 1) (by simpa using Nat.succ_lt_succ hq) (by omega) j)
      intro t
      rw [show i0 + 1 + p' = i0 + (p' + 1) by omega]
      exact htarget t

/-! ### Lemmas about baseline-length tagging -/

/-- The element width appended by `TagApicalAndBasalLengths` for a
non-membrane element: the absolute first component of the periodic
displacement from node 0 to the node at index `numNodes / 2`. -/
noncomputable def elemWidth (m : IBMesh) (pos : ℕ → Vec) (e : IBElement) : ℝ :=
  |(m.vecFromAtoB (pos (e.nodes.getD 0 0)) (pos (e.nodes.getD (e.nodes.length / 2) 0))).1|

/-- What one step of the length-tagging loop appends to its own element. -/
theorem tagElementLengths_self (m : IBMesh) (pos : ℕ → Vec) (eidx : ℕ) (e : IBElement)
    (attrs : ℕ → List ℝ) :
    tagElementLengths m pos eidx e attrs eidx
      = attrs eidx ++ (if eidx = m.membraneIndex then [0, 0]
          else [elemWidth m pos e, elemWidth m pos e]) := by
  unfold tagElementLengths elemWidth
  split
  · rw [Function.update_same]
  · rw [Function.update_same]

/-- One step of the length-tagging loop leaves other elements' attribute
lists unchanged. -/
theorem tagElementLengths_other (m : IBMesh) (pos : ℕ → Vec) (eidx k : ℕ) (e : IBElement)
    (attrs : ℕ → List ℝ) (hk : k ≠ eidx) :
    tagElementLengths m pos eidx e attrs k = attrs k := by
  unfold tagElementLengths
  split
  · exact Function.update_noteq hk _ _
  · exact Function.update_noteq hk _ _

/-- The length-tagging element loop never touches element indices below the
running index. -/
theorem attrsFold_untouched (m : IBMesh) (pos : ℕ → Vec) (l : List IBElement)
    (i0 k : ℕ) (a : ℕ → List ℝ) (hk : k < i0) :
    foldWithIndex (fun i e t => tagElementLengths m pos i e t) i0 l a k = a k := by
  induction l generalizing i0 a with
  | nil => rfl
  | cons e rest ih =>
    show foldWithIndex (fun i e t => tagElementLengths m pos i e t) (i0 + 1) rest
      (tagElementLengths m pos i0 e a) k = _
    rw [ih _ _ (by omega)]
    exact tagElementLengths_other m pos i0 k e a (by omega)

/-- Evaluation of the length-tagging element loop at the element at position
`p`: exactly one pair of attributes is appended to it. -/
theorem attrsFold_single (m : IBMesh) (pos : ℕ → Vec) (l : List IBElement)
    (i0 p : ℕ) (a : ℕ → List ℝ) (hp : p < l.length) :
    foldWithIndex (fun i e t => tagElementLengths m pos i e t) i0 l a (i0 + p)
      = a (i0 + p) ++ (if i0 + p = m.membraneIndex then [0, 0]
          else [elemWidth m pos (l.getD p default), elemWidth m pos (l.getD p default)]) := by
  induction l generalizing i0 p a with
  | nil => exact absurd hp (by simp)
  | cons e rest ih =>
    cases p with
    | zero =>
      show foldWithIndex (fun i e t => tagElementLengths m pos i e t) (i0 + 1) rest
        (tagElementLengths m pos i0 e a) (i0 + 0) = _
      rw [attrsFold_untouched m pos rest (i0 + 1) (i0 + 0) _ (by omega)]
      simpa using tagElementLengths_self m pos i0 e a
    | succ p' =>
      show foldWithIndex (fun i e t => tagElementLengths m pos i e t) (i0 + 1) rest
        (tagElementLengths m pos i0 e a) (i0 + (p' + 1)) = _
      rw [show i0 + (p' + 1) = (i0 + 1) + p' by omega]
      rw [ih (i0 + 1) p' _ (by simpa using Nat.lt_of_succ_lt_succ hp)]
      rw [tagElementLengths_other m pos i0 ((i0 + 1) + p') e a (by omega)]
      rfl

/-! ### Concrete fixtures used by witnesses and counterexamples -/

/-- A force state with distinct concrete parameter values. -/
noncomputable def fsA : ForceState := ⟨none, 3, 5, 7, 11, 0, false⟩

/-- A one-element mesh whose single element is the membrane element. -/
noncomputable def meshA : IBMesh := ⟨[⟨[1, 2], []⟩], 0, fun a b => b - a, fun _ => 1⟩

/-- A two-node element with global node indices 1 and 2. -/
def elemB : IBElement := ⟨[1, 2], []⟩

/-- A one-element mesh with no membrane element (index 99 is out of range). -/
noncomputable def meshB : IBMesh := ⟨[elemB], 99, fun a b => b - a, fun _ => 1⟩

/-- Node positions placing nodes 1 and 2 one unit apart. -/
noncomputable def posB : ℕ → Vec := fun n => if n = 2 then (1, 0) else (0, 0)

/-- Node positions placing every node at the origin (coincident nodes). -/
noncomputable def posZ : ℕ → Vec := fun _ => (0, 0)

/-! ### C2 -/

/-- C2: the per-element spring constant is
`base * intrinsic_spacing^2 / spacing_ratio^2` and the rest length is
`rest_length_multiplier * spacing_ratio`; if and only if the element is the
membrane element, the basement modifiers are additionally applied. -/
theorem C2_spring_params (fs : ForceState) (m : IBMesh) (s : ℝ) (eidx : ℕ) :
    (eidx = m.membraneIndex →
      elementSpringParams fs m (s * s) eidx
        = (fs.mSpringConstant * (s * s)
             / (m.averageNodeSpacing eidx * m.averageNodeSpacing eidx)
             * fs.mBasementSpringConstantModifier,
           fs.mRestLengthMultiplier * m.averageNodeSpacing eidx
             * fs.mBasementRestLengthModifier))
    ∧ (eidx ≠ m.membraneIndex →
      elementSpringParams fs m (s * s) eidx
        = (fs.mSpringConstant * (s * s)
             / (m.averageNodeSpacing eidx * m.averageNodeSpacing eidx),
           fs.mRestLengthMultiplier * m.averageNodeSpacing eidx)) := by
  unfold elementSpringParams
  constructor
  · intro h
    rw [if_pos h]
  · intro h
    rw [if_neg h]

/-- Witness for C2 at the membrane element of a concrete mesh. -/
theorem C2_spring_params_witness :
    elementSpringParams fsA meshA (2 * 2) 0
      = (fsA.mSpringConstant * ((2 : ℝ) * 2)
           / (meshA.averageNodeSpacing 0 * meshA.averageNodeSpacing 0)
           * fsA.mBasementSpringConstantModifier,
         fsA.mRestLengthMultiplier * meshA.averageNodeSpacing 0
           * fsA.mBasementRestLengthModifier) :=
  (C2_spring_params fsA meshA 2 0).1 rfl

/-! ### C7 -/

/-- C7: the per-segment force divides by the segment length with no guard:
with positive segment length the checked rendering succeeds and returns the
Hooke force actually computed, and with zero segment length (coincident
adjacent nodes) it is a division-by-zero domain error. -/
theorem C7_division_unguarded (m : IBMesh) (pos : ℕ → Vec) (k L : ℝ)
    (e : IBElement) (i : ℕ) :
    (0 < norm2 (segVec m pos e i) →
      elasticForceToNextNodeChecked m pos k L e i
        = some (elasticForceToNextNode m pos k L e i))
    ∧ (norm2 (segVec m pos e i) = 0 →
      elasticForceToNextNodeChecked m pos k L e i = none) := by
  constructor
  · intro h
    simp only [elasticForceToNextNodeChecked, checkedDiv, elasticForceToNextNode]
    rw [if_neg (ne_of_gt h)]
  · intro h
    simp only [elasticForceToNextNodeChecked, checkedDiv]
    rw [if_pos h]

/-- Witness for C7: a unit-length segment is well-defined; a zero-length
segment (both nodes at the origin) is the domain error. -/
theorem C7_division_unguarded_witness :
    elasticForceToNextNodeChecked meshB posB 3 5 elemB 0
      = some (elasticForceToNextNode meshB posB 3 5 elemB 0)
    ∧ elasticForceToNextNodeChecked meshB posZ 3 5 elemB 0 = none :=
  ⟨(C7_division_unguarded meshB posB 3 5 elemB 0).1 (by
      have hv : segVec meshB posB elemB 0 = (1, 0) := by
        simp [segVec, meshB, posB, elemB, Prod.ext_iff]
      rw [hv]
      simp [norm2]),
   (C7_division_unguarded meshB posZ 3 5 elemB 0).2 (by
      have hv : segVec meshB posZ elemB 0 = (0, 0) := by
        simp [segVec, meshB, posZ, elemB, Prod.ext_iff]
      rw [hv]
      simp [norm2])⟩

/-! ### C8 -/

/-- An accumulate-fold all of whose added values are zero is the identity. -/
theorem addFold_zero (key : ℕ → ℕ) (val : ℕ → Vec) (l : List ℕ) (f0 : ℕ → Vec)
    (h : ∀ j ∈ l, val j = 0) :
    l.foldl (fun f j => Function.update f (key j) (f (key j) + val j)) f0 = f0 := by
  induction l generalizing f0 with
  | nil => rfl
  | cons a t ih =>
    simp only [List.foldl_cons]
    rw [h a (List.mem_cons_self a t), add_zero, Function.update_eq_self]
    exact ih f0 (fun j hj => h j (List.mem_cons_of_mem a hj))

/-- C8: within the per-timestep force computation, an element all of whose
cyclic segments are at the element's rest length contributes the zero vector
to every node's accumulator. -/
theorem C8_rest_length_zero_force (fs : ForceState) (m : IBMesh) (iss : ℝ)
    (eidx : ℕ) (e : IBElement) (st : SimState)
    (hrest : ∀ i, i < e.nodes.length →
      norm2 (segVec m st.pos e i) = (elementSpringParams fs m iss eidx).2) :
    ∀ g, (applyElementForces fs m iss eidx e st).force g = st.force g := by
  have hforce0 : ∀ i, i < e.nodes.length →
      elasticForceToNextNode m st.pos
        (elementSpringParams fs m iss eidx).1 (elementSpringParams fs m iss eidx).2 e i = 0 := by
    intro i hi
    simp only [elasticForceToNextNode]
    rw [hrest i hi, sub_self, mul_zero, zero_div, zero_smul]
  intro g
  show ((List.range e.nodes.length).foldl _ st.force) g = st.force g
  rw [addFold_zero (fun i => e.nodes.getD i 0) _ (List.range e.nodes.length) st.force ?_]
  intro j hj
  have hj' := List.mem_range.1 hj
  have hn : 0 < e.nodes.length := by omega
  unfold aggregateForce
  rw [hforce0 j hj', hforce0 _ (Nat.mod_lt _ hn), sub_zero]

/-- A four-node unit-square element (global node indices 1-4). -/
def elemSq : IBElement := ⟨[1, 2, 3, 4], []⟩

/-- A one-element mesh holding the unit square, with no membrane element. -/
noncomputable def meshSq : IBMesh := ⟨[elemSq], 99, fun a b => b - a, fun _ => 1⟩

/-- A force state bound to `meshSq` whose rest-length multiplier makes every
unit segment exactly at rest length. -/
noncomputable def fsSq : ForceState := ⟨some meshSq, 3, 1, 7, 11, 0, false⟩

/-- State placing nodes 1-4 at the corners of the unit square. -/
noncomputable def stSq : SimState :=
  ⟨fun n => if n = 2 then (1, 0) else if n = 3 then (1, 1) else if n = 4 then (0, 1) else (0, 0),
   fun _ => (0, 0), fun _ => 0, fun _ => []⟩

/-- Witness for C8: the unit square at rest length receives no force on
node 1. -/
theorem C8_rest_length_zero_force_witness :
    (applyElementForces fsSq meshSq 1 0 elemSq stSq).force 1 = stSq.force 1 :=
  C8_rest_length_zero_force fsSq meshSq 1 0 elemSq stSq (by
    have hL : (elementSpringParams fsSq meshSq 1 0).2 = 1 := by
      simp [elementSpringParams, fsSq, meshSq]
    rw [hL]
    intro i hi
    have hi' : i < 4 := by simpa [elemSq] using hi
    clear hi
    interval_cases i
    · have hv : segVec meshSq stSq.pos elemSq 0 = (1, 0) := by
        simp [segVec, meshSq, stSq, elemSq, Prod.ext_iff]
      rw [hv]; simp [norm2]
    · have hv : segVec meshSq stSq.pos elemSq 1 = (0, 1) := by
        simp [segVec, meshSq, stSq, elemSq, Prod.ext_iff]
      rw [hv]; simp [norm2]
    · have hv : segVec meshSq stSq.pos elemSq 2 = (-1, 0) := by
        simp [segVec, meshSq, stSq, elemSq, Prod.ext_iff]
      rw [hv]; simp [norm2]
    · have hv : segVec meshSq stSq.pos elemSq 3 = (0, -1) := by
        simp [segVec, meshSq, stSq, elemSq, Prod.ext_iff]
      rw [hv]; simp [norm2]) 1

/-! ### Dispatch lemmas for `AddImmersedBoundaryForceContribution` -/

/-- With the mesh pointer already bound, a call is exactly the force pass over
the stored mesh, with no validation, no tagging and no error. -/
theorem AddImm_bound (fs : ForceState) (pop : Population) (st : SimState) (m : IBMesh)
    (hm : fs.mpMesh = some m) :
    AddImmersedBoundaryForceContribution fs pop st
      = (fs, forceComputationPass fs m (pop.intrinsicSpacing * pop.intrinsicSpacing) st, none) := by
  unfold AddImmersedBoundaryForceContribution
  rw [hm]

/-! ### C1 -/

/-- C1: for every element, the per-timestep force computation adds to each of
its nodes' existing accumulators exactly the stored segment force of the
node's own segment minus that of the preceding segment, each segment force
being `spring_constant * (d - rest_length) / d` times the periodic
displacement vector, and nothing else (no corner surface-force
contribution). -/
theorem C1_aggregate_force (fs : ForceState) (pop : Population) (st : SimState)
    (m : IBMesh) (eidx i g : ℕ)
    (hm : fs.mpMesh = some m)
    (he : eidx < m.elements.length)
    (hi : i < (m.elements.getD eidx default).nodes.length)
    (hg : (m.elements.getD eidx default).nodes.getD i 0 = g)
    (hu1 : ∀ x, x ≠ i → (m.elements.getD eidx default).nodes.getD x 0 ≠ g)
    (hu2 : ∀ q, q ≠ eidx → ∀ x, (m.elements.getD q default).nodes.getD x 0 ≠ g) :
    ((AddImmersedBoundaryForceContribution fs pop st).2.1).force g
      = st.force g
        + (elasticForceToNextNode m st.pos
             (elementSpringParams fs m (pop.intrinsicSpacing * pop.intrinsicSpacing) eidx).1
             (elementSpringParams fs m (pop.intrinsicSpacing * pop.intrinsicSpacing) eidx).2
             (m.elements.getD eidx default) i
           - elasticForceToNextNode m st.pos
               (elementSpringParams fs m (pop.intrinsicSpacing * pop.intrinsicSpacing) eidx).1
               (elementSpringParams fs m (pop.intrinsicSpacing * pop.intrinsicSpacing) eidx).2
               (m.elements.getD eidx default)
               ((i + (m.elements.getD eidx default).nodes.length - 1)
                 % (m.elements.getD eidx default).nodes.length)) := by
  rw [AddImm_bound fs pop st m hm]
  show (forcePassAux fs m _ 0 m.elements st).force g = _
  rw [forcePassAux_force_single fs m (pop.intrinsicSpacing * pop.intrinsicSpacing)
    m.elements 0 eidx st g i he (fun q hq hqe x => hu2 q hqe x) hi hg hu1]
  rw [zero_add]
  rfl

/-- A force state bound to `meshB`. -/
noncomputable def fsB : ForceState := ⟨some meshB, 3, 5, 7, 11, 0, false⟩

/-- A population wrapping `meshB` with intrinsic spacing 2. -/
noncomputable def popB : Population := ⟨meshB, 2⟩

/-- State with `posB` positions and clean accumulators. -/
noncomputable def stB : SimState := ⟨posB, fun _ => (0, 0), fun _ => 0, fun _ => []⟩

/-- Witness for C1 at node 1 of the two-node element of `meshB`. -/
theorem C1_aggregate_force_witness :
    ((AddImmersedBoundaryForceContribution fsB popB stB).2.1).force 1
      = stB.force 1
        + (elasticForceToNextNode meshB stB.pos
             (elementSpringParams fsB meshB (popB.intrinsicSpacing * popB.intrinsicSpacing) 0).1
             (elementSpringParams fsB meshB (popB.intrinsicSpacing * popB.intrinsicSpacing) 0).2
             (meshB.elements.getD 0 default) 0
           - elasticForceToNextNode meshB stB.pos
               (elementSpringParams fsB meshB (popB.intrinsicSpacing * popB.intrinsicSpacing) 0).1
               (elementSpringParams fsB meshB (popB.intrinsicSpacing * popB.intrinsicSpacing) 0).2
               (meshB.elements.getD 0 default)
               ((0 + (meshB.elements.getD 0 default).nodes.length - 1)
                 % (meshB.elements.getD 0 default).nodes.length)) :=
  C1_aggregate_force fsB popB stB meshB 0 0 1 rfl
    (by norm_num [meshB])
    (by norm_num [meshB, elemB])
    (by norm_num [meshB, elemB])
    (by
      intro x hx
      rcases x with _ | _ | x
      · exact absurd rfl hx
      · norm_num [meshB, elemB]
      · simp [meshB, elemB, List.getD])
    (by
      intro q hq x
      rcases q with _ | q
      · exact absurd rfl hq
      · simp [meshB, List.getD, show (default : IBElement).nodes = [] from rfl])

/-! ### C3 -/

/-- C3: one-time region tagging tags every node of the membrane element
basal, and tags the nodes of any other element by local index:
`[0, idx(c1))` lateral, `[idx(c1), idx(c0)+1)` apical, `[idx(c0)+1, idx(c3))`
lateral, `[idx(c3), idx(c2)+1)` basal, `[idx(c2)+1, n)` lateral, where
`c0..c3` are the element's stored corners in order (ranges taken in the
coherent, monotone case; a range whose bounds cross is empty). -/
theorem C3_region_tagging (m : IBMesh) (st : SimState) (eidx j g : ℕ) (e : IBElement)
    (hee : m.elements.getD eidx default = e)
    (he : eidx < m.elements.length)
    (hj : j < e.nodes.length)
    (hg : e.nodes.getD j 0 = g)
    (hu1 : ∀ x, x ≠ j → e.nodes.getD x 0 ≠ g)
    (hu2 : ∀ q, q ≠ eidx → ∀ x, (m.elements.getD q default).nodes.getD x 0 ≠ g)
    (hc12 : e.nodes.indexOf (e.corners.getD 1 0) ≤ e.nodes.indexOf (e.corners.getD 0 0) + 1)
    (hc23 : e.nodes.indexOf (e.corners.getD 0 0) + 1 ≤ e.nodes.indexOf (e.corners.getD 3 0))
    (hc34 : e.nodes.indexOf (e.corners.getD 3 0) ≤ e.nodes.indexOf (e.corners.getD 2 0) + 1) :
    (m.membraneIndex = eidx → (TagNodeRegions m st).region g = msBas)
    ∧ (m.membraneIndex ≠ eidx →
        (TagNodeRegions m st).region g =
          (if j < e.nodes.indexOf (e.corners.getD 1 0) then msLat
           else if j < e.nodes.indexOf (e.corners.getD 0 0) + 1 then msApi
           else if j < e.nodes.indexOf (e.corners.getD 3 0) then msLat
           else if j < e.nodes.indexOf (e.corners.getD 2 0) + 1 then msBas
           else msLat)) := by
  constructor
  · intro hmem
    show foldWithIndex (fun i e r => tagElementRegions m i e r) 0 m.elements st.region g = msBas
    apply regionFold_single m m.elements 0 eidx st.region g msBas he
      (fun q hq hqe x => hu2 q hqe x)
    intro t
    rw [hee]
    exact tagElementRegions_membrane m (0 + eidx) e t g j (by omega) hj hg
  · intro hmem
    show foldWithIndex (fun i e r => tagElementRegions m i e r) 0 m.elements st.region g = _
    apply regionFold_single m m.elements 0 eidx st.region g _ he
      (fun q hq hqe x => hu2 q hqe x)
    intro t
    rw [hee]
    exact tagElementRegions_eval m (0 + eidx) e t g j (by omega) hj hg hu1 hc12 hc23 hc34

/-- An element whose two nodes are also its (degenerate but monotone)
corners. -/
def elemC : IBElement := ⟨[1, 2], [1, 1, 2, 2]⟩

/-- A one-element mesh around `elemC`, with no membrane element. -/
noncomputable def meshC : IBMesh := ⟨[elemC], 99, fun a b => b - a, fun _ => 1⟩

/-- A state with sentinel region 5 everywhere. -/
noncomputable def stC : SimState := ⟨posZ, fun _ => (0, 0), fun _ => 5, fun _ => []⟩

/-- Witness for C3 at node 1 (local index 0) of `elemC`. -/
theorem C3_region_tagging_witness :
    (TagNodeRegions meshC stC).region 1 =
      (if 0 < elemC.nodes.indexOf (elemC.corners.getD 1 0) then msLat
       else if 0 < elemC.nodes.indexOf (elemC.corners.getD 0 0) + 1 then msApi
       else if 0 < elemC.nodes.indexOf (elemC.corners.getD 3 0) then msLat
       else if 0 < elemC.nodes.indexOf (elemC.corners.getD 2 0) + 1 then msBas
       else msLat) :=
  (C3_region_tagging meshC stC 0 0 1 elemC rfl
    (by norm_num [meshC])
    (by norm_num [elemC])
    (by norm_num [elemC])
    (by
      intro x hx
      rcases x with _ | _ | x
      · exact absurd rfl hx
      · norm_num [elemC]
      · simp [elemC, List.getD])
    (by
      intro q hq x
      rcases q with _ | q
      · exact absurd rfl hq
      · simp [meshC, List.getD, show (default : IBElement).nodes = [] from rfl])
    (by norm_num [elemC])
    (by norm_num [elemC])
    (by norm_num [elemC])).2 (by norm_num [meshC])

/-! ### C4 -/

/-- The 12-node element of the claim's example, with the stored corner list
`(apical-left, apical-right, basal-right, basal-left)` placed at local
indices `(2, 5, 8, 11)` respectively, as the claim states. -/
def elem12bad : IBElement := ⟨[0, 1, 2, 3, 4, 5, 6, 7, 8, 9, 10, 11], [2, 5, 8, 11]⟩

/-- A one-element mesh around `elem12bad`, with no membrane element. -/
noncomputable def mesh12bad : IBMesh := ⟨[elem12bad], 99, fun a b => b - a, fun _ => 1⟩

/-- The same 12-node element with the stored corners placed so that the
region boundaries are monotone: corner 1 at local index 2, corner 0 at 5,
corner 3 at 8, corner 2 at 11. -/
def elem12 : IBElement := ⟨[0, 1, 2, 3, 4, 5, 6, 7, 8, 9, 10, 11], [5, 2, 11, 8]⟩

/-- A one-element mesh around `elem12`, with no membrane element. -/
noncomputable def mesh12 : IBMesh := ⟨[elem12], 99, fun a b => b - a, fun _ => 1⟩

/-- A state with sentinel region 7 everywhere. -/
noncomputable def st12 : SimState := ⟨posZ, fun _ => (0, 0), fun _ => 7, fun _ => []⟩

/-- Counterexample to C4: with corners ordered apical-left, apical-right,
basal-right, basal-left at local indices 2, 5, 8, 11 respectively, the code
computes the apical window `[5, 3)` and the basal window `[11, 9)` — both
empty — and tags every node lateral; node 2 is lateral, not apical as the
claim states. -/
theorem C4_counterexample :
    (TagNodeRegions mesh12bad st12).region 2 = msLat ∧ msLat ≠ msApi := by
  constructor
  · decide
  · decide

/-- C4 amended: with the four stored corners placed so that the stored
corner 1 sits at local index 2, corner 0 at 5, corner 3 at 8 and corner 2 at
11 (apical-right at 2, apical-left at 5, basal-left at 8, basal-right at 11),
region tagging yields nodes 0-1 lateral, 2-5 apical, 6-7 lateral and 8-11
basal. -/
theorem C4_amended :
    (TagNodeRegions mesh12 st12).region 0 = msLat
    ∧ (TagNodeRegions mesh12 st12).region 1 = msLat
    ∧ (TagNodeRegions mesh12 st12).region 2 = msApi
    ∧ (TagNodeRegions mesh12 st12).region 3 = msApi
    ∧ (TagNodeRegions mesh12 st12).region 4 = msApi
    ∧ (TagNodeRegions mesh12 st12).region 5 = msApi
    ∧ (TagNodeRegions mesh12 st12).region 6 = msLat
    ∧ (TagNodeRegions mesh12 st12).region 7 = msLat
    ∧ (TagNodeRegions mesh12 st12).region 8 = msBas
    ∧ (TagNodeRegions mesh12 st12).region 9 = msBas
    ∧ (TagNodeRegions mesh12 st12).region 10 = msBas
    ∧ (TagNodeRegions mesh12 st12).region 11 = msBas := by
  refine ⟨?_, ?_, ?_, ?_, ?_, ?_, ?_, ?_, ?_, ?_, ?_, ?_⟩ <;> decide

/-! ### C5 -/

/-- State placing node 1 at the origin and node 2 at `(3, 4)`. -/
noncomputable def stC5 : SimState :=
  ⟨fun n => if n = 2 then (3, 4) else (0, 0), fun _ => (0, 0), fun _ => 0, fun _ => []⟩

/-- Counterexample to C5: for the element with nodes at `(0,0)` and `(3,4)`,
the recorded baseline length is the absolute x-component 3 of the
displacement, not the planar distance 5; the claim's "planar distance is
appended" is false at this input. -/
theorem C5_counterexample :
    ((TagApicalAndBasalLengths meshB stC5).attrs 0).getD 0 0 = 3
    ∧ planarDistance meshB (stC5.pos 1) (stC5.pos 2) = 5
    ∧ (3 : ℝ) ≠ 5 := by
  refine ⟨?_, ?_, by norm_num⟩
  · show ((foldWithIndex (fun i e a => tagElementLengths meshB stC5.pos i e a)
      0 meshB.elements stC5.attrs) 0).getD 0 0 = 3
    have h : meshB.elements = [elemB] := rfl
    rw [h]
    show ((tagElementLengths meshB stC5.pos 0 elemB stC5.attrs) 0).getD 0 0 = 3
    rw [tagElementLengths_self]
    rw [if_neg (by norm_num [meshB])]
    have hw : elemWidth meshB stC5.pos elemB = 3 := by
      unfold elemWidth
      norm_num [meshB, elemB, stC5, Prod.sub_def]
    rw [hw]
    norm_num [stC5]
  · unfold planarDistance
    have hv : meshB.vecFromAtoB (stC5.pos 1) (stC5.pos 2) = (3, 4) := by
      norm_num [meshB, stC5, Prod.ext_iff]
    rw [hv]
    unfold norm2
    rw [show ((3 : ℝ), (4 : ℝ)).1 * (3, (4 : ℝ)).1 + ((3 : ℝ), (4 : ℝ)).2 * (3, (4 : ℝ)).2
      = 25 by norm_num]
    rw [show (25 : ℝ) = 5 ^ 2 by norm_num]
    exact Real.sqrt_sq (by norm_num)

/-- C5 amended: during setup with corner tagging, the membrane element gets
two zero attributes appended and every other element gets the absolute
x-component (the element width) of the periodic displacement between node 0
and node `numNodes / 2` appended twice; the apical and basal getters then
return exactly these frozen attribute values. -/
theorem C5_lengths (fs : ForceState) (m : IBMesh) (st : SimState) (eidx : ℕ)
    (he : eidx < m.elements.length)
    (href : fs.mReferenceLocationInAttributesVector = (st.attrs eidx).length) :
    (eidx = m.membraneIndex →
      GetApicalLengthForElement fs (TagApicalAndBasalLengths m st) eidx = 0
      ∧ GetBasalLengthForElement fs (TagApicalAndBasalLengths m st) eidx = 0)
    ∧ (eidx ≠ m.membraneIndex →
      GetApicalLengthForElement fs (TagApicalAndBasalLengths m st) eidx
        = elemWidth m st.pos (m.elements.getD eidx default)
      ∧ GetBasalLengthForElement fs (TagApicalAndBasalLengths m st) eidx
        = elemWidth m st.pos (m.elements.getD eidx default)) := by
  have hfold : (TagApicalAndBasalLengths m st).attrs eidx
      = st.attrs eidx ++ (if eidx = m.membraneIndex then [0, 0]
          else [elemWidth m st.pos (m.elements.getD eidx default),
                elemWidth m st.pos (m.elements.getD eidx default)]) := by
    show (foldWithIndex (fun i e a => tagElementLengths m st.pos i e a)
      0 m.elements st.attrs) eidx = _
    have h0 : eidx = 0 + eidx := by omega
    rw [h0]
    rw [attrsFold_single m st.pos m.elements 0 eidx st.attrs he]
    rw [← h0]
  constructor
  · intro hmem
    unfold GetApicalLengthForElement GetBasalLengthForElement
    rw [hfold, if_pos hmem, href]
    constructor
    · rw [List.getD_append_right _ _ _ _ (le_refl _)]
      simp
    · rw [List.getD_append_right _ _ _ _ (by omega : (st.attrs eidx).length
        ≤ (st.attrs eidx).length + 1)]
      simp
  · intro hmem
    unfold GetApicalLengthForElement GetBasalLengthForElement
    rw [hfold, if_neg hmem, href]
    constructor
    · rw [List.getD_append_right _ _ _ _ (le_refl _)]
      simp
    · rw [List.getD_append_right _ _ _ _ (by omega : (st.attrs eidx).length
        ≤ (st.attrs eidx).length + 1)]
      simp

/-- Witness for C5 (amended): the getters of the `(0,0)`-`(3,4)` element
return the recorded element width. -/
theorem C5_lengths_witness :
    GetApicalLengthForElement fsA (TagApicalAndBasalLengths meshB stC5) 0
      = elemWidth meshB stC5.pos (meshB.elements.getD 0 default)
    ∧ GetBasalLengthForElement fsA (TagApicalAndBasalLengths meshB stC5) 0
      = elemWidth meshB stC5.pos (meshB.elements.getD 0 default) :=
  (C5_lengths fsA meshB stC5 0 (by norm_num [meshB]) (by simp [fsA, stC5])).2
    (by norm_num [meshB])

/-! ### C6 -/

/-- The element at a positive index is among the elements after the first. -/
theorem getD_mem_drop_one {α : Type} [Inhabited α] (l : List α) (q : ℕ)
    (h1 : 1 ≤ q) (h2 : q < l.length) : l.getD q default ∈ l.drop 1 := by
  rw [List.getD_eq_getElem l default h2]
  have h3 : q - 1 < (l.drop 1).length := by simp; omega
  have h4 : l[q] = (l.drop 1).get ⟨q - 1, h3⟩ := by
    rw [List.get_eq_getElem, List.getElem_drop]
    congr 1
    show q = 1 + (q - 1)
    omega
  rw [h4]
  exact List.get_mem _ _ _

/-- A positive index below `n` is among the indices `1, …, n-1`. -/
theorem mem_drop_one_range (n q : ℕ) (h1 : 1 ≤ q) (h2 : q < n) :
    q ∈ (List.range n).drop 1 := by
  have h3 : q - 1 < ((List.range n).drop 1).length := by simp; omega
  have h4 : ((List.range n).drop 1).get ⟨q - 1, h3⟩ = q := by
    rw [List.get_eq_getElem, List.getElem_drop, List.getElem_range]
    show 1 + (q - 1) = q
    omega
  rw [← h4]
  exact List.get_mem _ _ _

/-- Every member of the post-first suffix sits at some positive index. -/
theorem mem_drop_one_index {α : Type} [Inhabited α] (l : List α) (x : α)
    (h : x ∈ l.drop 1) : ∃ q, 1 ≤ q ∧ q < l.length ∧ l.getD q default = x := by
  obtain ⟨i, hi, hx⟩ := List.getElem_of_mem h
  rw [List.getElem_drop] at hx
  refine ⟨1 + i, by omega, ?_, ?_⟩
  · have := List.length_drop 1 l
    omega
  · rw [List.getD_eq_getElem l default (by have := List.length_drop 1 l; omega)]
    exact hx

/-- A first call finding a corner-count mismatch binds the mesh pointer and
aborts with the corner configuration error, touching nothing else. -/
theorem AddImm_corner_error (fs : ForceState) (pop : Population) (st : SimState)
    (h0 : fs.mpMesh = none)
    (hany : (pop.mesh.elements.drop 1).any
      (fun e => decide (e.corners.length
        ≠ (pop.mesh.elements.getD 0 default).corners.length)) = true) :
    AddImmersedBoundaryForceContribution fs pop st
      = ({ fs with mpMesh := some pop.mesh }, st, some cornersErrorMsg) := by
  unfold AddImmersedBoundaryForceContribution
  rw [h0]
  simp only [hany, if_true]

/-- A first call passing the corner check with four corners but finding an
attribute-count mismatch binds the mesh pointer, records the flag and
reference location, and aborts with the attribute configuration error. -/
theorem AddImm_attr_error (fs : ForceState) (pop : Population) (st : SimState)
    (h0 : fs.mpMesh = none)
    (hnoc : (pop.mesh.elements.drop 1).any
      (fun e => decide (e.corners.length
        ≠ (pop.mesh.elements.getD 0 default).corners.length)) = false)
    (h4 : (pop.mesh.elements.getD 0 default).corners.length = 4)
    (hanyattr : ((List.range pop.mesh.elements.length).drop 1).any
      (fun i => decide ((st.attrs i).length ≠ (st.attrs 0).length)) = true) :
    AddImmersedBoundaryForceContribution fs pop st
      = ({ fs with mpMesh := some pop.mesh,
                   mElementsHaveCorners := true,
                   mReferenceLocationInAttributesVector := (st.attrs 0).length },
         st, some attributesErrorMsg) := by
  unfold AddImmersedBoundaryForceContribution
  rw [h0]
  simp only [hnoc, Bool.false_eq_true, if_false]
  simp only [h4, hanyattr, decide_True, if_true]

/-- C6: on the first call, a corner count differing from element 0's raises
the fatal corner configuration error, and (with four corners everywhere) an
attribute count differing from element 0's raises the fatal attribute
configuration error; in both cases the call aborts without touching the
simulation state, so no force computation happens. -/
theorem C6_config_errors (fs : ForceState) (pop : Population) (st : SimState)
    (h0 : fs.mpMesh = none) :
    (∀ q, q < pop.mesh.elements.length →
      (pop.mesh.elements.getD q default).corners.length
        ≠ (pop.mesh.elements.getD 0 default).corners.length →
      (AddImmersedBoundaryForceContribution fs pop st).2.1 = st
        ∧ (AddImmersedBoundaryForceContribution fs pop st).2.2 = some cornersErrorMsg)
    ∧ ((∀ q, q < pop.mesh.elements.length →
          (pop.mesh.elements.getD q default).corners.length = 4) →
        ∀ q, q < pop.mesh.elements.length → (st.attrs q).length ≠ (st.attrs 0).length →
        (AddImmersedBoundaryForceContribution fs pop st).2.1 = st
          ∧ (AddImmersedBoundaryForceContribution fs pop st).2.2 = some attributesErrorMsg) := by
  constructor
  · intro q hq hne
    have hq1 : 1 ≤ q := by
      rcases Nat.eq_zero_or_pos q with rfl | h
      · exact absurd rfl hne
      · omega
    have hany : (pop.mesh.elements.drop 1).any
        (fun e => decide (e.corners.length
          ≠ (pop.mesh.elements.getD 0 default).corners.length)) = true :=
      List.any_eq_true.2
        ⟨pop.mesh.elements.getD q default, getD_mem_drop_one _ q hq1 hq, decide_eq_true hne⟩
    rw [AddImm_corner_error fs pop st h0 hany]
    exact ⟨rfl, rfl⟩
  · intro hall q hq hne
    have hlen : 0 < pop.mesh.elements.length := by omega
    have hq1 : 1 ≤ q := by
      rcases Nat.eq_zero_or_pos q with rfl | h
      · exact absurd rfl hne
      · omega
    have hnoc : (pop.mesh.elements.drop 1).any
        (fun e => decide (e.corners.length
          ≠ (pop.mesh.elements.getD 0 default).corners.length)) = false := by
      apply List.any_eq_false.2
      intro e he
      obtain ⟨r, hr1, hrlen, hre⟩ := mem_drop_one_index _ e he
      rw [← hre]
      simp only [decide_eq_true_eq, Decidable.not_not]
      rw [hall r hrlen, hall 0 hlen]
    have hanyattr : ((List.range pop.mesh.elements.length).drop 1).any
        (fun i => decide ((st.attrs i).length ≠ (st.attrs 0).length)) = true :=
      List.any_eq_true.2 ⟨q, mem_drop_one_range _ q hq1 hq, decide_eq_true hne⟩
    rw [AddImm_attr_error fs pop st h0 hnoc (hall 0 hlen) hanyattr]
    exact ⟨rfl, rfl⟩

/-- A two-element mesh with mismatched corner counts (4 and 0). -/
noncomputable def meshD : IBMesh := ⟨[elemC, ⟨[3, 4], []⟩], 99, fun a b => b - a, fun _ => 1⟩

/-- Population around `meshD`. -/
noncomputable def popD : Population := ⟨meshD, 1⟩

/-- A two-element mesh, both elements with four corners. -/
noncomputable def meshE : IBMesh :=
  ⟨[elemC, ⟨[3, 4], [3, 3, 4, 4]⟩], 99, fun a b => b - a, fun _ => 1⟩

/-- Population around `meshE`. -/
noncomputable def popE : Population := ⟨meshE, 1⟩

/-- A state whose element 1 has one attribute while element 0 has none. -/
noncomputable def stE : SimState :=
  ⟨posZ, fun _ => (0, 0), fun _ => 0, fun i => if i = 0 then [] else [0]⟩

/-- Witness for C6: the corner mismatch of `meshD` and the attribute mismatch
of `meshE` both abort the first call with the respective error. -/
theorem C6_config_errors_witness :
    ((AddImmersedBoundaryForceContribution fsA popD stC).2.1 = stC
      ∧ (AddImmersedBoundaryForceContribution fsA popD stC).2.2 = some cornersErrorMsg)
    ∧ ((AddImmersedBoundaryForceContribution fsA popE stE).2.1 = stE
      ∧ (AddImmersedBoundaryForceContribution fsA popE stE).2.2 = some attributesErrorMsg) :=
  ⟨(C6_config_errors fsA popD stC rfl).1 1 (by norm_num [popD, meshD]) (by decide),
   (C6_config_errors fsA popE stE rfl).2
     (by
       intro q hq
       have hq2 : q < 2 := by simpa [popE, meshE] using hq
       interval_cases q
       · decide
       · decide)
     1 (by norm_num [popE, meshE]) (by decide)⟩

/-! ### C10 -/

/-- C10: setup is not atomic on error — any failing first call has already
bound the mesh pointer, and any call that finds the pointer bound skips all
setup and validation (regions and attributes untouched, no error possible)
and goes straight to the force computation. -/
theorem C10_setup_not_atomic (fs : ForceState) (pop : Population) (st : SimState) :
    (fs.mpMesh = none →
      (AddImmersedBoundaryForceContribution fs pop st).2.2 ≠ none →
      (AddImmersedBoundaryForceContribution fs pop st).1.mpMesh = some pop.mesh)
    ∧ (∀ m, fs.mpMesh = some m →
      AddImmersedBoundaryForceContribution fs pop st
        = (fs, forceComputationPass fs m (pop.intrinsicSpacing * pop.intrinsicSpacing) st, none)
      ∧ (forceComputationPass fs m (pop.intrinsicSpacing * pop.intrinsicSpacing) st).region
          = st.region
      ∧ (forceComputationPass fs m (pop.intrinsicSpacing * pop.intrinsicSpacing) st).attrs
          = st.attrs) := by
  constructor
  · intro h0 herr
    unfold AddImmersedBoundaryForceContribution at herr ⊢
    rw [h0] at herr ⊢
    by_cases hc : (pop.mesh.elements.drop 1).any
        (fun e => decide (e.corners.length
          ≠ (pop.mesh.elements.getD 0 default).corners.length)) = true
    · simp only [hc, if_true]
    · rw [Bool.not_eq_true] at hc
      simp only [hc, Bool.false_eq_true, if_false] at herr ⊢
      by_cases h4 : (pop.mesh.elements.getD 0 default).corners.length = 4
      · simp only [h4, decide_True, if_true] at herr ⊢
        by_cases hattr : ((List.range pop.mesh.elements.length).drop 1).any
            (fun i => decide ((st.attrs i).length ≠ (st.attrs 0).length)) = true
        · simp only [hattr, if_true]
        · rw [Bool.not_eq_true] at hattr
          simp only [hattr, Bool.false_eq_true, if_false] at herr
          exact absurd rfl herr
      · simp only [decide_eq_false h4, Bool.false_eq_true, if_false] at herr
        exact absurd rfl herr
  · intro m hm
    refine ⟨AddImm_bound fs pop st m hm, ?_, ?_⟩
    · exact forcePassAux_region fs m _ m.elements 0 st
    · exact forcePassAux_attrs fs m _ m.elements 0 st

/-- Witness for C10: the failing first call on `meshD` has bound the pointer;
the already-bound `fsB` call is exactly the force pass. -/
theorem C10_setup_not_atomic_witness :
    (AddImmersedBoundaryForceContribution fsA popD stC).1.mpMesh = some popD.mesh
    ∧ (AddImmersedBoundaryForceContribution fsB popB stB
        = (fsB, forceComputationPass fsB meshB (popB.intrinsicSpacing * popB.intrinsicSpacing) stB,
           none)
      ∧ (forceComputationPass fsB meshB (popB.intrinsicSpacing * popB.intrinsicSpacing) stB).region
          = stB.region
      ∧ (forceComputationPass fsB meshB (popB.intrinsicSpacing * popB.intrinsicSpacing) stB).attrs
          = stB.attrs) :=
  ⟨(C10_setup_not_atomic fsA popD stC).1 rfl
     (by
       rw [AddImm_corner_error fsA popD stC rfl (by decide)]
       simp),
   (C10_setup_not_atomic fsB popB stB).2 meshB rfl⟩

/-! ### C9 -/

/-- Shape of a successful first call: the returned state is the force pass
over the population's mesh from a pre-state whose positions and accumulators
are untouched by setup, and the returned force object has the mesh bound. -/
theorem AddImm_success_shape (fs0 : ForceState) (pop : Population) (st0 : SimState)
    (h0 : fs0.mpMesh = none)
    (hok : (AddImmersedBoundaryForceContribution fs0 pop st0).2.2 = none) :
    ∃ fs1 stPre,
      AddImmersedBoundaryForceContribution fs0 pop st0
        = (fs1, forceComputationPass fs1 pop.mesh
            (pop.intrinsicSpacing * pop.intrinsicSpacing) stPre, none)
      ∧ fs1.mpMesh = some pop.mesh
      ∧ stPre.pos = st0.pos ∧ stPre.force = st0.force := by
  unfold AddImmersedBoundaryForceContribution at hok ⊢
  rw [h0] at hok ⊢
  by_cases hc : (pop.mesh.elements.drop 1).any
      (fun e => decide (e.corners.length
        ≠ (pop.mesh.elements.getD 0 default).corners.length)) = true
  · simp only [hc, if_true] at hok
    exact absurd hok (by simp)
  · rw [Bool.not_eq_true] at hc
    simp only [hc, Bool.false_eq_true, if_false] at hok ⊢
    by_cases h4 : (pop.mesh.elements.getD 0 default).corners.length = 4
    · simp only [h4, decide_True, if_true] at hok ⊢
      by_cases hattr : ((List.range pop.mesh.elements.length).drop 1).any
          (fun i => decide ((st0.attrs i).length ≠ (st0.attrs 0).length)) = true
      · simp only [hattr, if_true] at hok
        exact absurd hok (by simp)
      · rw [Bool.not_eq_true] at hattr
        simp only [hattr, Bool.false_eq_true, if_false] at hok ⊢
        exact ⟨_, _, rfl, rfl, rfl, rfl⟩
    · simp only [decide_eq_false h4, Bool.false_eq_true, if_false] at hok ⊢
      exact ⟨_, st0, rfl, rfl, rfl, rfl⟩

/-- C9: the per-timestep force computation is deterministic — after a
successful first call, re-running it on the same positions and configuration
with the accumulators reset to their original values adds identical force
vectors. -/
theorem C9_deterministic (fs0 : ForceState) (pop : Population) (st0 : SimState)
    (h0 : fs0.mpMesh = none)
    (hok : (AddImmersedBoundaryForceContribution fs0 pop st0).2.2 = none) (g : ℕ) :
    (AddImmersedBoundaryForceContribution
        (AddImmersedBoundaryForceContribution fs0 pop st0).1 pop
        { (AddImmersedBoundaryForceContribution fs0 pop st0).2.1 with
            force := st0.force }).2.1.force g
      = (AddImmersedBoundaryForceContribution fs0 pop st0).2.1.force g := by
  obtain ⟨fs1, stPre, heq, hmesh, hpos, hforce⟩ := AddImm_success_shape fs0 pop st0 h0 hok
  rw [heq]
  rw [AddImm_bound fs1 pop _ pop.mesh hmesh]
  have hcongr := forcePassAux_force_congr fs1 pop.mesh
    (pop.intrinsicSpacing * pop.intrinsicSpacing) pop.mesh.elements 0
    { forceComputationPass fs1 pop.mesh
        (pop.intrinsicSpacing * pop.intrinsicSpacing) stPre with force := st0.force }
    stPre
    (by
      show (forceComputationPass fs1 pop.mesh
        (pop.intrinsicSpacing * pop.intrinsicSpacing) stPre).pos = stPre.pos
      exact forcePassAux_pos fs1 pop.mesh _ pop.mesh.elements 0 stPre)
    (by
      show st0.force = stPre.force
      exact hforce.symm)
  exact congrFun hcongr g

/-- Witness for C9 on the one-element mesh `meshB`. -/
theorem C9_deterministic_witness :
    (AddImmersedBoundaryForceContribution
        (AddImmersedBoundaryForceContribution fsA popB stB).1 popB
        { (AddImmersedBoundaryForceContribution fsA popB stB).2.1 with
            force := stB.force }).2.1.force 1
      = (AddImmersedBoundaryForceContribution fsA popB stB).2.1.force 1 :=
  C9_deterministic fsA popB stB rfl (by rfl) 1
